import Mathlib

/-!
# Verification of the `test-by-a11y` accessibility-tree snapshot engine

Shallow embedding of the crate's core (src/api.rs and src/linux.rs) and
proofs about it.  The remote AT-SPI bus is modelled as a deterministic
oracle (`RemoteWorld`): each remote call is a function from a remote
reference to an `Except`-value, mirroring the fallible `atspi` client
calls.  Logging calls (`log::trace!` / `log::debug!`), whose arguments are
only evaluated when the corresponding log level is enabled, are modelled
as disabled, so the property fetches that occur purely inside log macro
arguments are omitted.  The `AccessibleProxy` builder chain used to
re-open a proxy from a destination/path pair is modelled by a single
fallible oracle call (`reopen`), and the `ObjectRef → AccessibleProxy`
conversion is folded into the child-listing call, since both merely
propagate their errors.
-/

set_option maxHeartbeats 1000000

/-- Role classification of an accessible object (external `atspi::Role`
enum; modelled with the variant this crate inspects plus representatives
of the others). -/
inductive Role where
  | Application
  | Frame
  | PushButton
  | Filler
deriving DecidableEq, Repr

/-- Errors of the external `atspi` crate, modelled with the one variant the
crate constructs (`AtspiError::Owned`, src/linux.rs line 119) plus a
representative for remote-call failures. -/
inductive AtspiError where
  | Owned (msg : String)
  | Method (msg : String)
deriving DecidableEq, Repr

/-- Errors of the external `zbus` crate (opaque here). -/
inductive ZbusError where
  | Failure (msg : String)
deriving DecidableEq, Repr

/-- Snapshot node (src/linux.rs `struct TreeNode`, lines 16-25). The
`BusName` destination is modelled as a string. -/
inductive TreeNode where
  | mk (destination : String) (path : String) (accessible_id : Option String)
       (name : Option String) (role : Role) (children : List TreeNode)

def TreeNode.destination : TreeNode → String | .mk d _ _ _ _ _ => d

def TreeNode.path : TreeNode → String | .mk _ p _ _ _ _ => p

def TreeNode.accessible_id : TreeNode → Option String | .mk _ _ a _ _ _ => a

def TreeNode.name : TreeNode → Option String | .mk _ _ _ n _ _ => n

def TreeNode.role : TreeNode → Role | .mk _ _ _ _ r _ => r

def TreeNode.children : TreeNode → List TreeNode | .mk _ _ _ _ _ c => c

/-- Replace a node's children, as `node.children = ...` does in the fold
phase (src/linux.rs line 113). -/
def TreeNode.withChildren : TreeNode → List TreeNode → TreeNode
  | .mk d p a n r _, cs => .mk d p a n r cs

/-- Ways we can find nodes (src/api.rs `enum By`, lines 25-30). -/
inductive By where
  | Tag (tag : String)
  | Text (text : String)
deriving DecidableEq, Repr

/-- Ways we can interact with nodes (src/api.rs `enum Interaction`). -/
inductive Interaction where
  | Click
deriving DecidableEq, Repr

/-- The match test performed at the top of `TreeNode::bfs` (src/linux.rs
lines 134-150): `self.accessible_id.as_ref().map(|t| t == tag).unwrap_or(false)`
resp. the same on `self.name`. -/
def matchesBy (t : TreeNode) (b : By) : Bool :=
  match b with
  | .Tag tag => (t.accessible_id.map (fun s => s == tag)).getD false
  | .Text text => (t.name.map (fun s => s == text)).getD false

mutual

/-- `TreeNode::bfs` (src/linux.rs lines 132-158): despite its name this
tests the node itself first, then recurses into the children in stored
order; the first hit wins and is returned as an owned clone. -/
def TreeNode.bfs : TreeNode → By → Option TreeNode
  | .mk d p a n r cs, b =>
    if matchesBy (.mk d p a n r cs) b then some (.mk d p a n r cs)
    else bfsList cs b
  termination_by t _ => sizeOf t

/-- The `for child in &self.children { if let Some(node) = child.bfs(..) }`
loop of `TreeNode::bfs` (src/linux.rs lines 152-156). -/
def bfsList : List TreeNode → By → Option TreeNode
  | [], _ => none
  | c :: rest, b =>
    match c.bfs b with
    | some node => some node
    | none => bfsList rest b
  termination_by l _ => sizeOf l

end

mutual

/-- Pre-order listing of the nodes of a snapshot tree (specification-side
notion, used to characterise the search order of `TreeNode::bfs`). -/
def TreeNode.preorder : TreeNode → List TreeNode
  | .mk d p a n r cs => .mk d p a n r cs :: preorderList cs
  termination_by t => sizeOf t

def preorderList : List TreeNode → List TreeNode
  | [] => []
  | c :: rest => c.preorder ++ preorderList rest
  termination_by l => sizeOf l

end

/-! ## The folding phase (src/linux.rs lines 102-119) -/

/-- The `while let Some(mut node) = nodes.pop()` loop of
`TreeNode::from_accessible_proxy` (src/linux.rs lines 104-115).  The Rust
code pops from the end of `nodes`; here the first argument is that vector
already reversed, so the head is the next node to pop.  The fold stack
grows at the end of the list (its last element is the top).
`saturating_sub` is natural-number subtraction; `split_off(begin)` is
`take`/`drop` at `begin`. -/
def foldLoop : List TreeNode → List TreeNode → List TreeNode
  | [], fold_stack => fold_stack
  | node :: rest, fold_stack =>
    if node.children.isEmpty then
      foldLoop rest (fold_stack ++ [node])
    else
      foldLoop rest (fold_stack.take (fold_stack.length - node.children.length)
        ++ [node.withChildren (fold_stack.drop (fold_stack.length - node.children.length))])

/-- The fold phase of `TreeNode::from_accessible_proxy` applied to the flat
completed-nodes list (src/linux.rs lines 102-119), including the final
`fold_stack.pop().ok_or(...)`. -/
def buildFromFlat (nodes : List TreeNode) : Except AtspiError TreeNode :=
  match (foldLoop nodes.reverse []).getLast? with
  | some root => .ok root
  | none => .error (.Owned "No root node built")

/-- The childless detail-only copy of a node that the expansion phase
records in its parent's entry (src/linux.rs lines 73-83). -/
def placeholder : TreeNode → TreeNode
  | .mk d p a n r _ => .mk d p a n r []

mutual

/-- The flat completed-nodes list that the expansion phase produces for a
tree-shaped remote graph whose recorded child counts are consistent
(specification-side notion): the entry for a node carries childless
placeholder copies of its children, and is followed by the serialisations
of the children in reverse order, because `stack.pop()` visits the most
recently pushed child first (src/linux.rs lines 46-100). -/
def TreeNode.discoveryList : TreeNode → List TreeNode
  | .mk d p a n r cs => .mk d p a n r (cs.map placeholder) :: discoveryRev cs
  termination_by t => sizeOf t

def discoveryRev : List TreeNode → List TreeNode
  | [] => []
  | c :: rest => discoveryRev rest ++ c.discoveryList
  termination_by l => sizeOf l

end

/-! ## The remote world model and the expansion phase (src/linux.rs lines 36-120) -/

/-- A remote reference: destination plus object path, enough to re-open a
proxy to one specific accessible object. -/
structure Ref where
  destination : String
  path : String
deriving DecidableEq, Repr

/-- An entry of `ActionProxy::get_actions`: a name and a description. -/
structure AtspiAction where
  name : String
  description : String
deriving DecidableEq, Repr

/-- Capabilities advertised by a remote object (external `atspi::Interface`
set, modelled with the variant this crate inspects plus representatives). -/
inductive Interface where
  | Action
  | Component
  | Text
deriving DecidableEq, Repr

/-- `struct NodeDetails` (src/linux.rs lines 27-34). -/
structure NodeDetails where
  destination : String
  path : String
  accessible_id : Option String
  name : Option String
  role : Role
deriving DecidableEq, Repr

/-- The remote accessibility bus, modelled as a deterministic oracle: one
fallible function per remote call the crate performs. -/
structure RemoteWorld where
  child_count : Ref → Except AtspiError Int
  get_children : Ref → Except AtspiError (List Ref)
  accessible_id : Ref → Except AtspiError String
  name : Ref → Except AtspiError String
  get_role : Ref → Except AtspiError Role
  get_interfaces : Ref → Except AtspiError (List Interface)
  get_actions : Ref → Except AtspiError (List AtspiAction)
  do_action : Ref → Nat → Except AtspiError Unit
  reopen : String → String → Except ZbusError Ref

/-- `TreeNode::get_node_details` (src/linux.rs lines 122-130): the
identifier and name lookups are degraded to optional fields via `.ok()`,
while a failing role lookup aborts via `?`. -/
def get_node_details (w : RemoteWorld) (node : Ref) : Except AtspiError NodeDetails :=
  match w.get_role node with
  | .error e => .error e
  | .ok role => .ok ⟨node.destination, node.path,
      (w.accessible_id node).toOption, (w.name node).toOption, role⟩

/-- `futures::future::try_join_all`: all calls must succeed, the first
failure short-circuits the whole step. -/
def tryJoinAll {α β : Type} (f : α → Except AtspiError β) :
    List α → Except AtspiError (List β)
  | [] => .ok []
  | a :: rest =>
    match f a with
    | .error e => .error e
    | .ok b =>
      match tryJoinAll f rest with
      | .error e => .error e
      | .ok bs => .ok (b :: bs)

/-- The expansion phase of `TreeNode::from_accessible_proxy` (src/linux.rs
lines 40-100).  The work stack and the completed-nodes vector both grow at
the end of the list, exactly as the Rust `Vec`s do: `stack.pop()` is
`getLast?`/`dropLast`, `stack.append(children)` appends at the end.  The
`fuel` argument bounds how many loop iterations we are willing to model;
`none` means the fuel ran out (the real loop would still be running, and
need not terminate on a cyclic remote graph). -/
def expandLoop (w : RemoteWorld) :
    Nat → List Ref → List TreeNode → Option (Except AtspiError (List TreeNode))
  | 0, stack, nodes =>
    match stack.getLast? with
    | none => some (.ok nodes)
    | some _ => none
  | fuel' + 1, stack, nodes =>
    match stack.getLast? with
    | none => some (.ok nodes)
    | some ap =>
      match w.child_count ap with
      | .error e => some (.error e)
      | .ok cc =>
        if cc > 65536 then expandLoop w fuel' stack.dropLast nodes
        else
          match w.get_children ap with
          | .error e => some (.error e)
          | .ok child_objects =>
            match tryJoinAll (get_node_details w) child_objects with
            | .error e => some (.error e)
            | .ok details =>
              match get_node_details w ap with
              | .error e => some (.error e)
              | .ok nd =>
                expandLoop w fuel' (stack.dropLast ++ child_objects)
                  (nodes ++ [TreeNode.mk nd.destination nd.path nd.accessible_id
                    nd.name nd.role
                    (details.map (fun dt => TreeNode.mk dt.destination dt.path
                      dt.accessible_id dt.name dt.role []))])

/-- `TreeNode::from_accessible_proxy` (src/linux.rs lines 37-120):
expansion followed by folding. -/
def TreeNode.from_accessible_proxy (w : RemoteWorld) (fuel : Nat) (ap : Ref) :
    Option (Except AtspiError TreeNode) :=
  match expandLoop w fuel [ap] [] with
  | none => none
  | some (.error e) => some (.error e)
  | some (.ok nodes) => some (buildFromFlat nodes)

/-! ## Session operations (src/linux.rs lines 161-314) -/

/-- `enum TestByATSPIError` (src/linux.rs lines 162-183). -/
inductive TestByATSPIError where
  | CannotFindApplication
  | Atspi (e : AtspiError)
  | Zbus (e : ZbusError)
  | CannotPerformInteractionOnTarget
  | CannotFindAction
deriving DecidableEq, Repr

/-- The `for child in proxy.get_children()` loop of
`TestByATSPI::connect_impl` (src/linux.rs lines 209-219): children whose
role is `Application` and whose name equals the requested application name
are accumulated in order. -/
def connectLoop (w : RemoteWorld) (app_name : String) :
    List Ref → List Ref → Except TestByATSPIError (List Ref)
  | [], potential_matches => .ok potential_matches
  | child :: rest, potential_matches =>
    match w.get_role child with
    | .error e => .error (.Atspi e)
    | .ok role =>
      if role == Role.Application then
        match w.name child with
        | .error e => .error (.Atspi e)
        | .ok nm =>
          if nm == app_name then
            connectLoop w app_name rest (potential_matches ++ [child])
          else connectLoop w app_name rest potential_matches
      else connectLoop w app_name rest potential_matches

/-- `TestByATSPI::connect_impl` (src/linux.rs lines 191-241), from the
point where the registry root proxy exists: enumerate the root's children,
collect the application-role children with a matching name, fail with
`CannotFindApplication` on zero or on more than one match, and otherwise
re-open the session's root proxy from the single match's destination/path
through the fallible builder chain (lines 232-238, modelled by the
`reopen` oracle whose failure surfaces as a `Zbus` error). -/
def connect_impl (w : RemoteWorld) (root : Ref) (app_name : String) :
    Except TestByATSPIError Ref :=
  match w.get_children root with
  | .error e => .error (.Atspi e)
  | .ok children =>
    match connectLoop w app_name children [] with
    | .error e => .error e
    | .ok potential_matches =>
      if potential_matches.isEmpty then .error .CannotFindApplication
      else if potential_matches.length > 1 then .error .CannotFindApplication
      else
        match potential_matches.head? with
        | some app =>
          match w.reopen app.destination app.path with
          | .error e => .error (.Zbus e)
          | .ok root_proxy => .ok root_proxy
        | none => .error .CannotFindApplication

/-- `TestByATSPI::find_impl` (src/linux.rs lines 243-266): build a snapshot
of the whole application subtree, search it, and re-open a live proxy for
the match.  `none` again means the modelling fuel ran out. -/
def find_impl (w : RemoteWorld) (fuel : Nat) (root : Ref) (b : By) :
    Option (Except TestByATSPIError (Option Ref)) :=
  match TreeNode.from_accessible_proxy w fuel root with
  | none => none
  | some (.error e) => some (.error (.Atspi e))
  | some (.ok tree) =>
    match tree.bfs b with
    | some node =>
      match w.reopen node.destination node.path with
      | .error e => some (.error (.Zbus e))
      | .ok proxy => some (.ok (some proxy))
    | none => some (.ok none)

/-- Case-insensitive containment of `"click"`:
`s.to_lowercase().contains("click")` (src/linux.rs lines 291-292),
modelled on the character list of the string. -/
def startsWithChars : List Char → List Char → Bool
  | [], _ => true
  | _ :: _, [] => false
  | a :: as_, b :: bs => a == b && startsWithChars as_ bs

def hasSubChars (needle : List Char) : List Char → Bool
  | [] => needle.isEmpty
  | c :: rest => startsWithChars needle (c :: rest) || hasSubChars needle rest

def containsClick (s : String) : Bool :=
  hasSubChars "click".data (s.data.map Char.toLower)

/-- Does one enumerated action qualify for the "click" interaction
(src/linux.rs lines 291-293)? -/
def clickQualifies (a : AtspiAction) : Bool :=
  containsClick a.name || containsClick a.description

/-- The `for (idx, action) in actions.iter().enumerate()` loop of
`TestByATSPI::interact_impl` (src/linux.rs lines 290-297): trigger the
first qualifying action and stop. -/
def clickLoop (w : RemoteWorld) (node : Ref) :
    List AtspiAction → Nat → Except TestByATSPIError Unit
  | [], _ => .error .CannotFindAction
  | action :: rest, idx =>
    if clickQualifies action then
      match w.do_action node idx with
      | .error e => .error (.Atspi e)
      | .ok _ => .ok ()
    else clickLoop w node rest (idx + 1)

/-- `TestByATSPI::interact_impl` (src/linux.rs lines 268-301).  Note
line 274: `node.get_interfaces().await.unwrap_or_default()` degrades a
failing interface-set lookup to the empty set. -/
def interact_impl (w : RemoteWorld) (node : Ref) (interaction : Interaction) :
    Except TestByATSPIError Unit :=
  let interfaces := (w.get_interfaces node).toOption.getD []
  match interaction with
  | .Click =>
    if !(interfaces.contains Interface.Action) then
      .error .CannotPerformInteractionOnTarget
    else
      match w.get_actions node with
      | .error e => .error (.Atspi e)
      | .ok actions => clickLoop w node actions 0

/-- `TestByATSPI::get_text_impl` (src/linux.rs lines 303-308): the node's
current name, re-fetched live. -/
def get_text_impl (w : RemoteWorld) (node : Ref) : Except TestByATSPIError String :=
  match w.name node with
  | .error e => .error (.Atspi e)
  | .ok n => .ok n

/-! ## Concrete instances used to witness the theorems -/

/-- Concrete leaf nodes and a small concrete snapshot tree: a root with
two leaf children. -/
def exLeaf1 : TreeNode := TreeNode.mk "app" "/a" none (some "9") Role.PushButton []

def exLeaf2 : TreeNode := TreeNode.mk "app" "/b" (some "plus") none Role.PushButton []

def exTree : TreeNode :=
  TreeNode.mk "app" "/root" (some "r") (some "Root") Role.Frame [exLeaf1, exLeaf2]

/-- A world whose root has one child that reports a huge child count:
root `/root` → child `/a` (child count 70000, with a child `/x` it would
report). -/
def guardChildWorld : RemoteWorld :=
  ⟨fun r => if r.path = "/root" then .ok 1 else if r.path = "/a" then .ok 70000 else .ok 0,
   fun r => if r.path = "/root" then .ok [⟨"app", "/a"⟩]
     else if r.path = "/a" then .ok [⟨"app", "/x"⟩] else .ok [],
   fun r => .ok r.path,
   fun _ => .ok "n",
   fun _ => .ok Role.Frame,
   fun _ => .ok [],
   fun _ => .ok [],
   fun _ _ => .ok (),
   fun d p => .ok ⟨d, p⟩⟩

/-- A world whose root itself reports a huge child count. -/
def hugeRootWorld : RemoteWorld :=
  ⟨fun _ => .ok 100000,
   fun _ => .ok [],
   fun r => .ok r.path,
   fun _ => .ok "n",
   fun _ => .ok Role.Frame,
   fun _ => .ok [],
   fun _ => .ok [],
   fun _ _ => .ok (),
   fun d p => .ok ⟨d, p⟩⟩

/-- A registry world for `connect`: three children of the accessibility
root, exactly one of which is an application named `"calc"`. -/
def connectWorld : RemoteWorld :=
  ⟨fun _ => .ok 0,
   fun r => if r.path = "/registry"
     then .ok [⟨"calc", "/app1"⟩, ⟨"gedit", "/app2"⟩, ⟨"x", "/f"⟩] else .ok [],
   fun r => .ok r.path,
   fun r => if r.path = "/app1" then .ok "calc"
     else if r.path = "/app2" then .ok "gedit" else .ok "calc",
   fun r => if r.path = "/f" then .ok Role.Frame else .ok Role.Application,
   fun _ => .ok [],
   fun _ => .ok [],
   fun _ _ => .ok (),
   fun d p => .ok ⟨d, p⟩⟩

/-- A world with one clickable node advertising the action capability and
two enumerated actions, of which only the second mentions "click". -/
def clickWorld : RemoteWorld :=
  ⟨fun _ => .ok 0,
   fun _ => .ok [],
   fun r => .ok r.path,
   fun _ => .ok "n",
   fun _ => .ok Role.PushButton,
   fun _ => .ok [Interface.Action],
   fun _ => .ok [⟨"Activate", "toggle"⟩, ⟨"Click me", ""⟩],
   fun _ _ => .ok (),
   fun d p => .ok ⟨d, p⟩⟩

/-- A world whose interface-set lookup fails, although the node does have
a clickable action that could have been enumerated and triggered. -/
def brokenIfaceWorld : RemoteWorld :=
  ⟨fun _ => .ok 0,
   fun _ => .ok [],
   fun r => .ok r.path,
   fun _ => .ok "n",
   fun _ => .ok Role.PushButton,
   fun _ => .error (.Method "interface lookup failed"),
   fun _ => .ok [⟨"Click me", ""⟩],
   fun _ _ => .ok (),
   fun d p => .ok ⟨d, p⟩⟩

/-- A world whose snapshot builds fine (a single childless root) but in
which no node matches anything except its own name. -/
def noMatchWorld : RemoteWorld :=
  ⟨fun _ => .ok 0,
   fun _ => .ok [],
   fun _ => .ok "root-id",
   fun _ => .ok "Root",
   fun _ => .ok Role.Frame,
   fun _ => .ok [],
   fun _ => .ok [],
   fun _ _ => .ok (),
   fun d p => .ok ⟨d, p⟩⟩

/-- Specification-side predicate: a child of the accessibility root that
`connect` counts as a match — role `Application` and name equal to the
requested application name (src/linux.rs lines 211-218). -/
def isAppMatch (w : RemoteWorld) (app_name : String) (c : Ref) : Bool :=
  match w.get_role c, w.name c with
  | .ok Role.Application, .ok nm => nm == app_name
  | _, _ => false

/-! ## Helper lemmas -/

/-- Structural strong induction for the nested inductive `TreeNode`. -/
theorem TreeNode.strongInduction {P : TreeNode → Prop}
    (h : ∀ d p a n r cs, (∀ c ∈ cs, P c) → P (.mk d p a n r cs)) : ∀ t, P t
  | .mk d p a n r cs => h d p a n r cs (fun c _ => TreeNode.strongInduction h c)
  termination_by t => sizeOf t
  decreasing_by
    rename_i hc
    calc sizeOf c < sizeOf cs := List.sizeOf_lt_of_mem hc
    _ < sizeOf (TreeNode.mk d p a n r cs) := by simp

theorem bfsList_eq_find (b : By) : ∀ (cs : List TreeNode),
    (∀ c ∈ cs, c.bfs b = c.preorder.find? (fun n => matchesBy n b)) →
    bfsList cs b = (preorderList cs).find? (fun n => matchesBy n b) := by
  intro cs
  induction cs with
  | nil => intro _; simp [bfsList, preorderList]
  | cons c rest ihl =>
    intro h
    rw [bfsList, preorderList, List.find?_append, h c (by simp)]
    cases hf : (TreeNode.preorder c).find? (fun n => matchesBy n b) with
    | some v => rfl
    | none =>
      simp only [Option.none_or]
      exact ihl (fun c' hc' => h c' (by simp [hc']))

/-- `TreeNode::bfs` returns the first node of the pre-order listing that
satisfies the query. -/
theorem bfs_eq_find : ∀ (t : TreeNode) (b : By),
    t.bfs b = t.preorder.find? (fun n => matchesBy n b) := by
  intro t
  induction t using TreeNode.strongInduction with
  | _ d p a n r cs ih =>
    intro b
    rw [TreeNode.bfs, TreeNode.preorder]
    by_cases hm : matchesBy (TreeNode.mk d p a n r cs) b = true
    · rw [if_pos hm, List.find?_cons_of_pos (p := fun n => matchesBy n b) _ hm]
    · rw [if_neg hm, List.find?_cons_of_neg (p := fun n => matchesBy n b) _ hm]
      exact bfsList_eq_find b cs (fun c hc => ih c hc b)

theorem foldLoop_append : ∀ (xs ys fs : List TreeNode),
    foldLoop (xs ++ ys) fs = foldLoop ys (foldLoop xs fs) := by
  intro xs
  induction xs with
  | nil => intro ys fs; rfl
  | cons x rest ih =>
    intro ys fs
    rw [List.cons_append, foldLoop, foldLoop]
    by_cases hx : x.children.isEmpty = true
    · rw [if_pos hx, if_pos hx, ih]
    · rw [if_neg hx, if_neg hx, ih]

theorem foldLoop_discoveryRevAux : ∀ (cs : List TreeNode),
    (∀ c ∈ cs, ∀ fs, foldLoop (TreeNode.discoveryList c).reverse fs = fs ++ [c]) →
    ∀ fs, foldLoop (discoveryRev cs).reverse fs = fs ++ cs := by
  intro cs
  induction cs with
  | nil => intro _ fs; simp [discoveryRev, foldLoop]
  | cons c rest ih =>
    intro h fs
    rw [discoveryRev, List.reverse_append, foldLoop_append, h c (by simp),
      ih (fun c' hc' => h c' (by simp [hc']))]
    simp

/-- Folding the discovery serialisation of a tree pushes exactly that tree
onto the fold stack. -/
theorem foldLoop_discovery : ∀ (t : TreeNode) (fs : List TreeNode),
    foldLoop (TreeNode.discoveryList t).reverse fs = fs ++ [t] := by
  intro t
  induction t using TreeNode.strongInduction with
  | _ d p a n r cs ih =>
    intro fs
    rw [TreeNode.discoveryList, List.reverse_cons, foldLoop_append,
      foldLoop_discoveryRevAux cs (fun c hc fs' => ih c hc fs')]
    cases cs with
    | nil => simp [foldLoop, TreeNode.children]
    | cons c rest =>
      rw [foldLoop]
      rw [if_neg (by simp [TreeNode.children])]
      have hlen : (TreeNode.mk d p a n r ((c :: rest).map placeholder)).children.length
          = (c :: rest).length := by
        simp [TreeNode.children]
      rw [hlen]
      have hsub : (fs ++ c :: rest).length - (c :: rest).length = fs.length := by
        simp
      rw [hsub, List.take_left, List.drop_left]
      rfl

theorem matchesBy_tag_iff (t : TreeNode) (s : String) :
    matchesBy t (By.Tag s) = true ↔ t.accessible_id = some s := by
  cases t with
  | mk d p a n r cs =>
    cases a with
    | none => simp [matchesBy, TreeNode.accessible_id]
    | some v => simp [matchesBy, TreeNode.accessible_id]

theorem matchesBy_text_iff (t : TreeNode) (s : String) :
    matchesBy t (By.Text s) = true ↔ t.name = some s := by
  cases t with
  | mk d p a n r cs =>
    cases n with
    | none => simp [matchesBy, TreeNode.name]
    | some v => simp [matchesBy, TreeNode.name]

theorem self_mem_preorder (t : TreeNode) : t ∈ t.preorder := by
  cases t with
  | mk d p a n r cs =>
    rw [TreeNode.preorder]
    exact List.mem_cons_self _ _

theorem mem_preorderList_iff (u : TreeNode) : ∀ (cs : List TreeNode),
    u ∈ preorderList cs ↔ ∃ c ∈ cs, u ∈ c.preorder := by
  intro cs
  induction cs with
  | nil => simp [preorderList]
  | cons c rest ih =>
    rw [preorderList]
    simp [List.mem_append, ih]

theorem mem_preorder_iff (u : TreeNode) (d p : String) (a n : Option String)
    (r : Role) (cs : List TreeNode) :
    u ∈ (TreeNode.mk d p a n r cs).preorder ↔
      u = TreeNode.mk d p a n r cs ∨ ∃ c ∈ cs, u ∈ c.preorder := by
  rw [TreeNode.preorder]
  simp [mem_preorderList_iff]

/-- Provenance through the folding phase: every node occurring anywhere in
a tree on the final fold stack either descends from the initial fold
stack, or carries the destination/path of some entry of the flat list. -/
theorem foldLoop_members : ∀ (ns fs : List TreeNode), ∀ r ∈ foldLoop ns fs, ∀ u ∈ r.preorder,
    (∃ v ∈ fs, u ∈ v.preorder)
      ∨ ∃ n ∈ ns, n.destination = u.destination ∧ n.path = u.path := by
  intro ns
  induction ns with
  | nil =>
    intro fs r hr u hu
    exact Or.inl ⟨r, hr, hu⟩
  | cons node rest ih =>
    intro fs r hr u hu
    rw [foldLoop] at hr
    by_cases hnc : node.children.isEmpty = true
    · rw [if_pos hnc] at hr
      rcases ih _ r hr u hu with ⟨v, hv, hvu⟩ | ⟨n, hn, he⟩
      · rcases List.mem_append.1 hv with hv' | hv'
        · exact Or.inl ⟨v, hv', hvu⟩
        · have hveq : v = node := by simpa using hv'
          subst hveq
          cases v with
          | mk d p a nn rl cs =>
            have hcs : cs = [] := by
              simpa [TreeNode.children] using hnc
            subst hcs
            rcases (mem_preorder_iff u d p a nn rl []).1 hvu with heq | ⟨c, hc, _⟩
            · subst heq
              exact Or.inr ⟨_, List.mem_cons_self _ _, rfl, rfl⟩
            · simp at hc
      · exact Or.inr ⟨n, List.mem_cons_of_mem _ hn, he⟩
    · rw [if_neg hnc] at hr
      rcases ih _ r hr u hu with ⟨v, hv, hvu⟩ | ⟨n, hn, he⟩
      · rcases List.mem_append.1 hv with hv' | hv'
        · exact Or.inl ⟨v, List.take_subset _ _ hv', hvu⟩
        · have hveq : v = node.withChildren
              (fs.drop (fs.length - node.children.length)) := by simpa using hv'
          subst hveq
          cases node with
          | mk d p a nn rl cs =>
            rcases (mem_preorder_iff u d p a nn rl _).1
                (by simpa [TreeNode.withChildren] using hvu) with heq | ⟨c, hc, hcu⟩
            · subst heq
              exact Or.inr ⟨_, List.mem_cons_self _ _, rfl, rfl⟩
            · exact Or.inl ⟨c, List.drop_subset _ _ hc, hcu⟩
      · exact Or.inr ⟨n, List.mem_cons_of_mem _ hn, he⟩

theorem get_node_details_dest (w : RemoteWorld) (r : Ref) (nd : NodeDetails) :
    get_node_details w r = .ok nd → nd.destination = r.destination ∧ nd.path = r.path := by
  rw [get_node_details]
  cases w.get_role r with
  | error e => intro h; cases h
  | ok role =>
    intro h
    cases h
    exact ⟨rfl, rfl⟩

/-- Every entry that the expansion phase appends to the flat
completed-nodes list belongs to a reference whose child-count call
succeeded with a value within the guard threshold. -/
theorem expandLoop_entries (w : RemoteWorld) : ∀ (fuel : Nat) (stack : List Ref)
    (nodes flat : List TreeNode),
    expandLoop w fuel stack nodes = some (.ok flat) →
    ∀ n ∈ flat, n ∈ nodes
      ∨ ∃ cc, w.child_count ⟨n.destination, n.path⟩ = .ok cc ∧ cc ≤ 65536 := by
  intro fuel
  induction fuel with
  | zero =>
    intro stack nodes flat h
    rw [expandLoop] at h
    split at h
    · have : nodes = flat := by simpa using h
      subst this
      intro n hn
      exact Or.inl hn
    · cases h
  | succ fuel ih =>
    intro stack nodes flat h
    rw [expandLoop] at h
    split at h
    · have : nodes = flat := by simpa using h
      subst this
      intro n hn
      exact Or.inl hn
    · rename_i ap hs
      split at h
      · cases h
      · rename_i cc hcc
        split at h
        · exact ih _ _ _ h
        · rename_i hguard
          split at h
          · cases h
          · rename_i child_objects hgc
            split at h
            · cases h
            · rename_i details hjoin
              split at h
              · cases h
              · rename_i nd hnd
                intro n hn
                rcases ih _ _ _ h n hn with hmem | hok
                · rcases List.mem_append.1 hmem with h1 | h2
                  · exact Or.inl h1
                  · have hneq : n = TreeNode.mk nd.destination nd.path nd.accessible_id
                        nd.name nd.role
                        (details.map (fun dt => TreeNode.mk dt.destination dt.path
                          dt.accessible_id dt.name dt.role [])) := by
                      simpa using h2
                    subst hneq
                    rcases get_node_details_dest w ap nd hnd with ⟨hd, hp⟩
                    refine Or.inr ⟨cc, ?_, by omega⟩
                    have href : (⟨nd.destination, nd.path⟩ : Ref) = ap := by
                      rw [hd, hp]
                    rw [show (TreeNode.mk nd.destination nd.path nd.accessible_id nd.name
                      nd.role _).destination = nd.destination from rfl]
                    rw [show (TreeNode.mk nd.destination nd.path nd.accessible_id nd.name
                      nd.role _).path = nd.path from rfl]
                    rw [href]
                    exact hcc
                · exact Or.inr hok

/-- The click-action loop triggers exactly the first qualifying index, as
computed by `List.findIdx?`. -/
theorem clickLoop_eq_findIdx (w : RemoteWorld) (node : Ref) :
    ∀ (actions : List AtspiAction) (k : Nat),
    clickLoop w node actions k
      = match actions.findIdx? clickQualifies k with
        | none => .error .CannotFindAction
        | some i =>
          match w.do_action node i with
          | .error e => .error (.Atspi e)
          | .ok _ => .ok () := by
  intro actions
  induction actions with
  | nil => intro k; rfl
  | cons a rest ih =>
    intro k
    rw [clickLoop]
    by_cases hq : clickQualifies a = true
    · rw [if_pos hq]
      simp only [List.findIdx?_cons, hq, if_pos]
    · rw [if_neg hq, ih (k + 1)]
      have : (a :: rest).findIdx? clickQualifies k = rest.findIdx? clickQualifies (k + 1) := by
        rw [List.findIdx?_cons]
        simp [hq]
      rw [this]

/-- The application-search loop of `connect` collects exactly the children
satisfying `isAppMatch`, in order, provided every examined remote call
succeeds. -/
theorem connectLoop_ok (w : RemoteWorld) (app_name : String) : ∀ (children acc : List Ref),
    (∀ c ∈ children, ∃ role, w.get_role c = .ok role) →
    (∀ c ∈ children, w.get_role c = .ok Role.Application → ∃ nm, w.name c = .ok nm) →
    connectLoop w app_name children acc
      = .ok (acc ++ children.filter (isAppMatch w app_name)) := by
  intro children
  induction children with
  | nil => intro acc _ _; simp [connectLoop]
  | cons c rest ih =>
    intro acc hroles hnames
    rw [connectLoop]
    rcases hroles c (by simp) with ⟨role, hrole⟩
    rw [hrole]
    dsimp only
    by_cases happ : role = Role.Application
    · subst happ
      rw [if_pos (by simp)]
      rcases hnames c (by simp) hrole with ⟨nm, hnm⟩
      rw [hnm]
      dsimp only
      have hmatch : isAppMatch w app_name c = (nm == app_name) := by
        rw [isAppMatch, hrole, hnm]
      by_cases hn : (nm == app_name) = true
      · rw [if_pos hn, ih _ (fun c' hc' => hroles c' (by simp [hc']))
          (fun c' hc' => hnames c' (by simp [hc']))]
        rw [List.filter_cons, hmatch, hn]
        simp
      · rw [if_neg hn, ih _ (fun c' hc' => hroles c' (by simp [hc']))
          (fun c' hc' => hnames c' (by simp [hc']))]
        rw [List.filter_cons, hmatch]
        simp [hn]
    · rw [if_neg (by simp [happ])]
      rw [ih _ (fun c' hc' => hroles c' (by simp [hc']))
        (fun c' hc' => hnames c' (by simp [hc']))]
      have hmatch : isAppMatch w app_name c = false := by
        rw [isAppMatch, hrole]
        cases role with
        | Application => exact absurd rfl happ
        | Frame => cases w.name c <;> rfl
        | PushButton => cases w.name c <;> rfl
        | Filler => cases w.name c <;> rfl
      rw [List.filter_cons, hmatch]
      simp

/-! ## Claims -/

/-- C1: For every flat completed-nodes list produced by the expansion phase
with consistent recorded child counts (i.e. the discovery serialisation of
a tree), the folding phase reconstructs exactly that tree — each node's
materialized children are its recorded children in discovery order — and
the fold stack ends holding exactly one node, the root; if the fold stack
ends empty, the build fails with the "no root node produced" error
(`AtspiError::Owned "No root node built"`). -/
theorem C1_fold_correctness :
    (∀ t : TreeNode, foldLoop (TreeNode.discoveryList t).reverse [] = [t]
      ∧ buildFromFlat (TreeNode.discoveryList t) = .ok t)
    ∧ ∀ nodes : List TreeNode, foldLoop nodes.reverse [] = [] →
        buildFromFlat nodes = .error (.Owned "No root node built") := by
  constructor
  · intro t
    have h := foldLoop_discovery t []
    rw [List.nil_append] at h
    refine ⟨h, ?_⟩
    rw [buildFromFlat, h]
    rfl
  · intro nodes h
    rw [buildFromFlat, h]
    rfl

theorem C1_fold_correctness_witness :
    buildFromFlat (TreeNode.discoveryList exTree) = .ok exTree
    ∧ buildFromFlat [] = .error (.Owned "No root node built") :=
  ⟨(C1_fold_correctness.1 exTree).2, C1_fold_correctness.2 [] rfl⟩

/-- C2: the search visits nodes depth-first in pre-order — a node is
tested before its children, children in stored order — and returns the
first match in that order; as a pure function of the snapshot and query,
the result is determined by them. -/
theorem C2_search_preorder_first_match (t : TreeNode) (b : By) :
    t.bfs b = t.preorder.find? (fun n => matchesBy n b) :=
  bfs_eq_find t b

/-- C3 (counterexample): the claim says a node reporting a child count
above 65536 still appears in the snapshot as a childless, detail-only
node.  In `guardChildWorld` the child `/a` of the root reports 70000
children, yet the built snapshot is just the childless root: no node with
path `/a` survives, because the fold phase replaces the parent's recorded
placeholder children wholesale with whatever the fold stack offers. -/
theorem C3_guard_counterexample :
    guardChildWorld.child_count ⟨"app", "/a"⟩ = .ok 70000
    ∧ TreeNode.from_accessible_proxy guardChildWorld 3 ⟨"app", "/root"⟩
        = some (.ok (TreeNode.mk "app" "/root" (some "/root") (some "n") Role.Frame []))
    ∧ ∀ u ∈ (TreeNode.mk "app" "/root" (some "/root") (some "n") Role.Frame []).preorder,
        u.path ≠ "/a" := by
  refine ⟨rfl, rfl, ?_⟩
  intro u hu
  rw [TreeNode.preorder, preorderList] at hu
  rcases List.mem_singleton.1 hu with rfl
  simp [TreeNode.path]

/-- C3 (amended): a remote node reporting a child count above 65536 is
skipped by the builder and does not appear in the resulting snapshot at
all — not even as a childless detail-only node: every node present in a
successfully built snapshot belongs to a reference whose child-count call
succeeded with a value of at most 65536. -/
theorem C3_guarded_nodes_absent (w : RemoteWorld) (fuel : Nat) (root : Ref) (t : TreeNode) :
    TreeNode.from_accessible_proxy w fuel root = some (.ok t) →
    ∀ u ∈ t.preorder,
      ∃ cc, w.child_count ⟨u.destination, u.path⟩ = .ok cc ∧ cc ≤ 65536 := by
  intro h u hu
  rw [TreeNode.from_accessible_proxy] at h
  split at h
  · cases h
  · cases h
  · rename_i nodes hexp
    have hbuild : buildFromFlat nodes = .ok t := by
      injection h
    rw [buildFromFlat] at hbuild
    split at hbuild
    · rename_i rt hlast
      have hrt : rt = t := by
        injection hbuild
      subst hrt
      have hmem := List.mem_of_getLast?_eq_some hlast
      rcases foldLoop_members nodes.reverse [] rt hmem u hu with ⟨v, hv, _⟩ | ⟨n, hn, hd, hp⟩
      · simp at hv
      · rcases expandLoop_entries w fuel [root] [] nodes hexp n (List.mem_reverse.1 hn)
            with hmem' | ⟨cc, hcc, hle⟩
        · simp at hmem'
        · exact ⟨cc, by rw [← hd, ← hp]; exact hcc, hle⟩
    · cases hbuild

theorem C3_guarded_nodes_absent_witness :
    ∃ cc, guardChildWorld.child_count ⟨"app", "/root"⟩ = .ok cc ∧ cc ≤ 65536 := by
  have h := C3_guarded_nodes_absent guardChildWorld 3 ⟨"app", "/root"⟩
    (TreeNode.mk "app" "/root" (some "/root") (some "n") Role.Frame []) rfl
    (TreeNode.mk "app" "/root" (some "/root") (some "n") Role.Frame [])
    (self_mem_preorder _)
  simpa [TreeNode.destination, TreeNode.path] using h

/-- C4: the folding phase is total on every flat list, even one whose
recorded child counts are inconsistent with the entries available: one
fold step pops exactly `min` (recorded child count, fold-stack length)
entries — the pop count is clamped to the stack's length, and on
underflow the whole remaining stack is consumed, yielding a
partially-malformed subtree rather than a panic — and the overall build
always returns either a root node or the "No root node built" error. -/
theorem C4_fold_underflow_clamped :
    (∀ (node : TreeNode) (rest fold_stack : List TreeNode),
      ∃ kept popped, fold_stack = kept ++ popped
        ∧ popped.length = min node.children.length fold_stack.length
        ∧ (fold_stack.length < node.children.length → popped = fold_stack)
        ∧ foldLoop (node :: rest) fold_stack
            = foldLoop rest (kept ++ [node.withChildren popped]))
    ∧ ∀ nodes : List TreeNode, (∃ t, buildFromFlat nodes = .ok t)
        ∨ buildFromFlat nodes = .error (.Owned "No root node built") := by
  constructor
  · intro node rest fs
    refine ⟨fs.take (fs.length - node.children.length),
            fs.drop (fs.length - node.children.length),
            (List.take_append_drop _ _).symm, ?_, ?_, ?_⟩
    · rw [List.length_drop]
      omega
    · intro hlt
      have h0 : fs.length - node.children.length = 0 := by omega
      rw [h0, List.drop_zero]
    · rw [foldLoop]
      by_cases hnc : node.children.isEmpty = true
      · rw [if_pos hnc]
        cases node with
        | mk d p a n r cs =>
          have hcs : cs = [] := by simpa [TreeNode.children] using hnc
          subst hcs
          simp [TreeNode.children, TreeNode.withChildren]
      · rw [if_neg hnc]
  · intro nodes
    rw [buildFromFlat]
    cases h : (foldLoop nodes.reverse []).getLast? with
    | none => exact Or.inr rfl
    | some rt => exact Or.inl ⟨rt, rfl⟩

theorem C4_fold_underflow_clamped_witness :
    ∃ kept popped, ([exLeaf1] : List TreeNode) = kept ++ popped
      ∧ popped.length = min exTree.children.length [exLeaf1].length
      ∧ ([exLeaf1].length < exTree.children.length → popped = [exLeaf1])
      ∧ foldLoop [exTree] [exLeaf1] = foldLoop [] (kept ++ [exTree.withChildren popped]) :=
  C4_fold_underflow_clamped.1 exTree [] [exLeaf1]

/-- C5: provided the examined remote calls succeed (the role and name
lookups on the root's children, and the rebuild of the matched
application's proxy), `connect` succeeds if and only if exactly one child
of the accessibility root has role `Application` and the requested name —
returning the proxy re-opened from that child's destination/path — while
zero matches and two-or-more matches both fail with the same
`CannotFindApplication` error. -/
theorem C5_connect_ambiguity (w : RemoteWorld) (root : Ref) (app_name : String)
    (children : List Ref)
    (hch : w.get_children root = .ok children)
    (hroles : ∀ c ∈ children, ∃ role, w.get_role c = .ok role)
    (hnames : ∀ c ∈ children, w.get_role c = .ok Role.Application → ∃ nm, w.name c = .ok nm)
    (hreopen : ∀ c ∈ children, ∃ pr, w.reopen c.destination c.path = .ok pr) :
    (∀ app, children.filter (isAppMatch w app_name) = [app] →
        ∃ pr, w.reopen app.destination app.path = .ok pr
          ∧ connect_impl w root app_name = .ok pr)
    ∧ ((∃ pr, connect_impl w root app_name = .ok pr) →
        (children.filter (isAppMatch w app_name)).length = 1)
    ∧ ((children.filter (isAppMatch w app_name)).length ≠ 1 →
        connect_impl w root app_name = .error .CannotFindApplication) := by
  have hloop := connectLoop_ok w app_name children [] hroles hnames
  rw [List.nil_append] at hloop
  have hconn : connect_impl w root app_name =
      (if (children.filter (isAppMatch w app_name)).isEmpty
        then .error .CannotFindApplication
        else if (children.filter (isAppMatch w app_name)).length > 1
          then .error .CannotFindApplication
          else match (children.filter (isAppMatch w app_name)).head? with
            | some app =>
              match w.reopen app.destination app.path with
              | .error e => .error (.Zbus e)
              | .ok root_proxy => .ok root_proxy
            | none => .error .CannotFindApplication) := by
    rw [connect_impl, hch]
    dsimp only
    rw [hloop]
  refine ⟨?_, ?_, ?_⟩
  · intro app hfil
    have happ_mem : app ∈ children :=
      List.mem_of_mem_filter (by rw [hfil]; exact List.mem_singleton_self app)
    obtain ⟨pr, hpr⟩ := hreopen app happ_mem
    refine ⟨pr, hpr, ?_⟩
    rw [hconn, hfil]
    simp [hpr]
  · rintro ⟨pr, hok⟩
    rw [hconn] at hok
    cases hfil : children.filter (isAppMatch w app_name) with
    | nil =>
      rw [hfil] at hok
      cases hok
    | cons x xs =>
      cases xs with
      | nil => simp
      | cons y ys =>
        rw [hfil] at hok
        simp at hok
  · intro hne
    rw [hconn]
    cases hfil : children.filter (isAppMatch w app_name) with
    | nil => simp
    | cons x xs =>
      cases xs with
      | nil =>
        rw [hfil] at hne
        simp at hne
      | cons y ys =>
        simp

theorem C5_connect_ambiguity_witness :
    connect_impl connectWorld ⟨"reg", "/registry"⟩ "calc" = .ok ⟨"calc", "/app1"⟩ := by
  obtain ⟨pr, hpr, hconn⟩ := (C5_connect_ambiguity connectWorld ⟨"reg", "/registry"⟩ "calc"
      [⟨"calc", "/app1"⟩, ⟨"gedit", "/app2"⟩, ⟨"x", "/f"⟩] rfl
      (by intro c hc; fin_cases hc <;> exact ⟨_, rfl⟩)
      (by intro c hc _; fin_cases hc <;> exact ⟨_, rfl⟩)
      (by intro c hc; fin_cases hc <;> exact ⟨_, rfl⟩)).1 ⟨"calc", "/app1"⟩ rfl
  rw [show connectWorld.reopen (Ref.mk "calc" "/app1").destination
      (Ref.mk "calc" "/app1").path = .ok ⟨"calc", "/app1"⟩ from rfl] at hpr
  injection hpr with hpr'
  rw [← hpr'] at hconn
  exact hconn

/-- C6: for a click interaction, a live node whose (successfully fetched)
capability set lacks `Action` yields the terminal
`CannotPerformInteractionOnTarget` error; otherwise, among the enumerated
actions the one triggered is at the first index whose name or description
contains the case-insensitive substring "click" (first qualifying index
wins), and if no action qualifies the result is `CannotFindAction`. -/
theorem C6_click_resolution (w : RemoteWorld) (node : Ref) :
    (∀ ifaces, w.get_interfaces node = .ok ifaces →
      ifaces.contains Interface.Action = false →
      interact_impl w node .Click = .error .CannotPerformInteractionOnTarget)
    ∧ (∀ ifaces actions, w.get_interfaces node = .ok ifaces →
        ifaces.contains Interface.Action = true → w.get_actions node = .ok actions →
        ((actions.findIdx? clickQualifies = none →
          interact_impl w node .Click = .error .CannotFindAction)
        ∧ ∀ i, actions.findIdx? clickQualifies = some i →
            interact_impl w node .Click
              = match w.do_action node i with
                | .error e => .error (.Atspi e)
                | .ok _ => .ok ())) := by
  constructor
  · intro ifaces hif hno
    rw [interact_impl, hif]
    simp only [Except.toOption, Option.getD]
    rw [if_pos (show (!ifaces.contains Interface.Action) = true from by rw [hno]; rfl)]
  · intro ifaces actions hif hyes hacts
    have hbase : interact_impl w node .Click = clickLoop w node actions 0 := by
      rw [interact_impl, hif]
      simp only [Except.toOption, Option.getD]
      rw [if_neg (show ¬(!ifaces.contains Interface.Action) = true from by
        rw [hyes]
        simp)]
      rw [hacts]
    constructor
    · intro hnone
      rw [hbase, clickLoop_eq_findIdx, hnone]
    · intro i hsome
      rw [hbase, clickLoop_eq_findIdx, hsome]

theorem C6_click_resolution_witness :
    interact_impl clickWorld ⟨"app", "/n"⟩ .Click = .ok ()
    ∧ ([⟨"Activate", "toggle"⟩, ⟨"Click me", ""⟩] : List AtspiAction).findIdx?
        clickQualifies = some 1 := by
  constructor
  · have h := ((C6_click_resolution clickWorld ⟨"app", "/n"⟩).2 [Interface.Action]
      [⟨"Activate", "toggle"⟩, ⟨"Click me", ""⟩] rfl rfl rfl).2 1 rfl
    simpa using h
  · rfl

/-- C7 (counterexample): the claim allows only the identifier/name lookups
during snapshot building to swallow a remote failure.  But in
`brokenIfaceWorld` the interface-set lookup during interaction fails with
a remote error, and `interact` neither propagates it nor surfaces it in
any `Atspi`-wrapped form: `unwrap_or_default()` (src/linux.rs line 274)
degrades the failure to an empty capability set and the caller sees
`CannotPerformInteractionOnTarget` instead. -/
theorem C7_swallowed_failure_counterexample :
    brokenIfaceWorld.get_interfaces ⟨"app", "/n"⟩
      = .error (.Method "interface lookup failed")
    ∧ interact_impl brokenIfaceWorld ⟨"app", "/n"⟩ .Click
        = .error .CannotPerformInteractionOnTarget
    ∧ ∀ e : AtspiError, interact_impl brokenIfaceWorld ⟨"app", "/n"⟩ .Click
        ≠ .error (.Atspi e) := by
  refine ⟨rfl, rfl, ?_⟩
  intro e h
  rw [show interact_impl brokenIfaceWorld ⟨"app", "/n"⟩ .Click
    = .error .CannotPerformInteractionOnTarget from rfl] at h
  injection h with h'
  cases h'

/-- C7 (amended): every failing remote call is surfaced to the caller as a
typed error, except (a) the identifier and name lookups during snapshot
building, which are degraded to absent optional fields, and (b) the
interface-set lookup during interaction, which is degraded to an empty
capability set, so its failure surfaces as
`CannotPerformInteractionOnTarget` rather than as the underlying error. -/
theorem C7_error_propagation_amended (w : RemoteWorld) (r : Ref) :
    (∀ e, w.get_role r = .error e → get_node_details w r = .error e)
    ∧ (∀ role, w.get_role r = .ok role → get_node_details w r
        = .ok ⟨r.destination, r.path, (w.accessible_id r).toOption,
            (w.name r).toOption, role⟩)
    ∧ (∀ fuel e, w.child_count r = .error e →
        TreeNode.from_accessible_proxy w (fuel + 1) r = some (.error e))
    ∧ (∀ fuel cc e, w.child_count r = .ok cc → ¬(cc > 65536) →
        w.get_children r = .error e →
        TreeNode.from_accessible_proxy w (fuel + 1) r = some (.error e))
    ∧ (∀ e, w.get_interfaces r = .error e →
        interact_impl w r .Click = .error .CannotPerformInteractionOnTarget)
    ∧ (∀ ifaces e, w.get_interfaces r = .ok ifaces →
        ifaces.contains Interface.Action = true →
        w.get_actions r = .error e → interact_impl w r .Click = .error (.Atspi e))
    ∧ (∀ e, w.name r = .error e → get_text_impl w r = .error (.Atspi e)) := by
  refine ⟨?_, ?_, ?_, ?_, ?_, ?_, ?_⟩
  · intro e he
    rw [get_node_details, he]
  · intro role hrole
    rw [get_node_details, hrole]
  · intro fuel e he
    rw [TreeNode.from_accessible_proxy]
    have hexp : expandLoop w (fuel + 1) [r] [] = some (.error e) := by
      rw [expandLoop]
      rw [show ([r] : List Ref).getLast? = some r from rfl]
      dsimp only
      rw [he]
    rw [hexp]
  · intro fuel cc e hcc hguard he
    rw [TreeNode.from_accessible_proxy]
    have hexp : expandLoop w (fuel + 1) [r] [] = some (.error e) := by
      rw [expandLoop]
      rw [show ([r] : List Ref).getLast? = some r from rfl]
      dsimp only
      rw [hcc]
      dsimp only
      rw [if_neg hguard, he]
    rw [hexp]
  · intro e he
    rw [interact_impl, he]
    rfl
  · intro ifaces e hif hcontains hacts
    rw [interact_impl, hif]
    simp only [Except.toOption, Option.getD]
    rw [if_neg (show ¬(!ifaces.contains Interface.Action) = true from by
      rw [hcontains]
      simp)]
    rw [hacts]
  · intro e he
    rw [get_text_impl, he]

theorem C7_error_propagation_amended_witness :
    interact_impl brokenIfaceWorld ⟨"app", "/w"⟩ .Click
      = .error .CannotPerformInteractionOnTarget :=
  (C7_error_propagation_amended brokenIfaceWorld ⟨"app", "/w"⟩).2.2.2.2.1
    (.Method "interface lookup failed") rfl

/-- C8: "match by identifier" matches exactly when the node's identifier
field is present and equal to the query string, "match by text" exactly
when the name field is present and equal (absent fields never match); both
are exact string comparisons, and search returns `none` precisely when no
node of the subtree matches. -/
theorem C8_query_matching (t : TreeNode) (s : String) :
    (matchesBy t (By.Tag s) = true ↔ t.accessible_id = some s)
    ∧ (matchesBy t (By.Text s) = true ↔ t.name = some s)
    ∧ ∀ b : By, (t.bfs b = none ↔ ∀ n ∈ t.preorder, matchesBy n b = false) := by
  refine ⟨matchesBy_tag_iff t s, matchesBy_text_iff t s, ?_⟩
  intro b
  rw [bfs_eq_find, List.find?_eq_none]
  constructor
  · intro h n hn
    simpa using h n hn
  · intro h n hn
    simp [h n hn]

/-- C9: when the snapshot build succeeds and no node matches, `find`
returns the successful empty result `Ok(None)`; an error from `find` can
only arise from a failed build or from a failed re-opening of a matched
node's live proxy, never from a missing match. -/
theorem C9_absence_not_error (w : RemoteWorld) (fuel : Nat) (root : Ref) (b : By) :
    (∀ t, TreeNode.from_accessible_proxy w fuel root = some (.ok t) → t.bfs b = none →
      find_impl w fuel root b = some (.ok none))
    ∧ (∀ e, find_impl w fuel root b = some (.error e) →
        (∃ ae, TreeNode.from_accessible_proxy w fuel root = some (.error ae)
          ∧ e = .Atspi ae)
        ∨ (∃ t n ze, TreeNode.from_accessible_proxy w fuel root = some (.ok t)
            ∧ t.bfs b = some n ∧ w.reopen n.destination n.path = .error ze
            ∧ e = .Zbus ze)) := by
  constructor
  · intro t hb hn
    rw [find_impl, hb]
    dsimp only
    rw [hn]
  · intro e h
    rw [find_impl] at h
    split at h
    · cases h
    · rename_i ae hb
      injection h with h'
      injection h' with h''
      exact Or.inl ⟨ae, hb, h''.symm⟩
    · rename_i t hb
      split at h
      · rename_i n hn
        split at h
        · rename_i ze hre
          injection h with h'
          injection h' with h''
          exact Or.inr ⟨t, n, ze, hb, hn, hre, h''.symm⟩
        · cases h
      · cases h

theorem C9_absence_not_error_witness :
    find_impl noMatchWorld 1 ⟨"app", "/root"⟩ (By.Text "missing") = some (.ok none) := by
  refine (C9_absence_not_error noMatchWorld 1 ⟨"app", "/root"⟩ (By.Text "missing")).1
    (TreeNode.mk "app" "/root" (some "root-id") (some "Root") Role.Frame []) rfl ?_
  rw [TreeNode.bfs]
  simp [matchesBy, TreeNode.name, bfsList]

/-- C10: if the root reference itself reports a child count above 65536,
the expansion phase produces no entries at all and the build fails with
the `Owned "No root node built"` error rather than returning a childless
root. -/
theorem C10_root_guard (w : RemoteWorld) (fuel : Nat) (root : Ref) (cc : Int)
    (hcc : w.child_count root = .ok cc) (hbig : cc > 65536) :
    expandLoop w (fuel + 1) [root] [] = some (.ok [])
    ∧ TreeNode.from_accessible_proxy w (fuel + 1) root
        = some (.error (.Owned "No root node built")) := by
  have hexp : expandLoop w (fuel + 1) [root] [] = some (.ok []) := by
    rw [expandLoop]
    rw [show ([root] : List Ref).getLast? = some root from rfl]
    dsimp only
    rw [hcc]
    dsimp only
    rw [if_pos hbig]
    rw [show ([root] : List Ref).dropLast = [] from rfl]
    cases fuel with
    | zero => rfl
    | succ f => rfl
  refine ⟨hexp, ?_⟩
  rw [TreeNode.from_accessible_proxy, hexp]
  rfl

theorem C10_root_guard_witness :
    TreeNode.from_accessible_proxy hugeRootWorld 1 ⟨"app", "/root"⟩
      = some (.error (.Owned "No root node built")) :=
  (C10_root_guard hugeRootWorld 0 ⟨"app", "/root"⟩ 100000 rfl (by decide)).2
